import Mathlib

/-!
Shallow embedding of the cliplin reindex core
(`src/cliplin/commands/reindex.py` and `src/cliplin/utils/chromadb.py`):
path classification, file-set resolution, collection bootstrap, the
per-file reconciliation engine, and the dry-run report.  Paths are
modelled as project-relative strings, the filesystem as explicit lists
of existing files and directories, and the ChromaDB client as an
explicit association-list store with per-call fault flags standing for
the exceptions the real store may raise.
-/

/-- Model of Python `str.startswith`: `p` is a literal string prefix of `s`. -/
def strStartsWith (s p : String) : Bool := p.data.isPrefixOf s.data

/-- Model of a literal string suffix test on `s`. -/
def strEndsWith (s p : String) : Bool := p.data.isSuffixOf s.data

/-- One entry of `COLLECTION_MAPPINGS` (chromadb.py, lines 14-35). -/
structure CollectionMapping where
  directories : List String
  file_pattern : String
  type : String
deriving DecidableEq, Repr

/-- The static table `COLLECTION_MAPPINGS` from chromadb.py, in source order. -/
def COLLECTION_MAPPINGS : List (String × CollectionMapping) :=
  [("business-and-architecture", ⟨["docs/adrs", "docs/business"], "*.md", "adr"⟩),
   ("features", ⟨["docs/features"], "*.feature", "feature"⟩),
   ("tech-specs", ⟨["docs/ts4"], "*.ts4", "ts4"⟩),
   ("uisi", ⟨["docs/ui-intent"], "*.yaml", "ui-intent"⟩)]

/-- `REQUIRED_COLLECTIONS = list(COLLECTION_MAPPINGS.keys())` (chromadb.py line 37). -/
def REQUIRED_COLLECTIONS : List String := COLLECTION_MAPPINGS.map Prod.fst

/-- All registered source directories, in table order. -/
def REGISTERED_DIRECTORIES : List String :=
  (COLLECTION_MAPPINGS.map (fun e => e.2.directories)).flatten

/-- Model of `Path.match(pattern)` for the patterns appearing in the table.
Every pattern there has the shape `*.<ext>`; for such a pattern `Path.match`
tests the final path component against the glob, which (because the suffix
begins with a dot and contains no separator) is equivalent to a suffix test
on the whole path string.  Dropping the first character strips the star. -/
def matchPattern (pat : String) (p : String) : Bool :=
  strEndsWith p (String.mk (pat.data.drop 1))

/-- `get_collection_for_file` (chromadb.py, lines 131-142): first mapping, in
table order, one of whose directories is a string prefix of the relative path
while the path also matches the mapping's glob pattern. -/
def get_collection_for_file (rel : String) : Option String :=
  (COLLECTION_MAPPINGS.find? (fun e =>
    e.2.directories.any (fun d => strStartsWith rel d && matchPattern e.2.file_pattern rel))).map
    Prod.fst

/-- `get_file_type` (chromadb.py, lines 145-155): same scan as
`get_collection_for_file` but returning the mapping's document-type tag. -/
def get_file_type (rel : String) : Option String :=
  (COLLECTION_MAPPINGS.find? (fun e =>
    e.2.directories.any (fun d => strStartsWith rel d && matchPattern e.2.file_pattern rel))).map
    (fun e => e.2.type)

/-- Path-segment containment: `p` is a file strictly below directory `d`
(the relative path continues with a separator right after `d`).  This is the
structured notion of "lies under a registered directory", as opposed to the
raw string-prefix test the source performs. -/
def isUnderDir (p d : String) : Bool := strStartsWith p (d ++ "/")

/-- The filesystem visible below the project root: the relative paths of the
regular files and of the directories that exist. -/
structure FS where
  files : List String
  dirs : List String
deriving DecidableEq, Repr

/-- Model of `dir_path.rglob(pattern)`: the existing files strictly below
`d` whose name matches the glob (a suffix test, see `matchPattern`). -/
def rglob (fs : FS) (d : String) (pat : String) : List String :=
  fs.files.filter (fun p => isUnderDir p d && matchPattern pat p)

/-- Well-formedness of the filesystem model, specialised to the registered
directories: a real filesystem cannot hold a file below a directory that does
not itself exist. -/
def FS.wf (fs : FS) : Bool :=
  REGISTERED_DIRECTORIES.all (fun d =>
    fs.files.all (fun p => !(isUnderDir p d) || fs.dirs.contains d))

/-- Ordering of one character for path comparison: Python compares `Path`
objects component-by-component, which on separator-free components coincides
with comparing the raw strings with the separator ranked below every other
character. -/
def sepRank (c : Char) : Nat := if c = '/' then 0 else c.toNat + 1

/-- Lexicographic comparison of character lists under `sepRank`. -/
def keyLt : List Char → List Char → Bool
  | [], [] => false
  | [], _ :: _ => true
  | _ :: _, [] => false
  | a :: as, b :: bs => sepRank a < sepRank b || (a == b && keyLt as bs)

/-- The order in which Python's `sorted` arranges the `Path` objects built by
`get_files_to_reindex`: lexicographic on the path's component sequence. -/
def pathLt (a b : String) : Bool := keyLt a.data b.data

/-- Insert a path into a strictly ascending list, dropping duplicates; the
building block for the model of `sorted(set(files))`. -/
def insertPath (x : String) : List String → List String
  | [] => [x]
  | y :: ys =>
    if pathLt x y then x :: y :: ys
    else if x = y then y :: ys
    else y :: insertPath x ys

/-- Model of `sorted(set(files))` (reindex.py line 219): deduplicate and sort. -/
def sortPaths (l : List String) : List String := l.foldr insertPath []

/-- The `type_mapping` table local to `get_files_to_reindex`
(reindex.py lines 172-177), in source order. -/
def TYPE_MAPPING : List (String × String × String) :=
  [("ts4", "docs/ts4", "*.ts4"),
   ("feature", "docs/features", "*.feature"),
   ("md", "docs/adrs", "*.md"),
   ("yaml", "docs/ui-intent", "*.yaml")]

/-- Errors raised by `get_files_to_reindex` (FileNotFoundError / ValueError). -/
inductive SelErr
  | fileNotFound
  | notInContextDir
  | unknownType
  | dirNotFound
  | dirNotContext
deriving DecidableEq, Repr

/-- Accumulation across every mapping's directories in "all" mode
(reindex.py lines 211-217), and for the two markdown directories of
by-type mode (lines 186-191): extend with the recursive glob of each
directory that exists, skipping the ones that do not. -/
def collectDirs (fs : FS) (dirsPat : List (String × String)) (acc : List String) : List String :=
  dirsPat.foldl (fun a e => a ++ (if fs.dirs.contains e.1 then rglob fs e.1 e.2 else [])) acc

/-- All (directory, pattern) pairs of the mapping table, in table order. -/
def allDirPatterns : List (String × String) :=
  (COLLECTION_MAPPINGS.map (fun e => e.2.directories.map (fun d => (d, e.2.file_pattern)))).flatten

/-- Single-file branch of `get_files_to_reindex` (reindex.py lines 154-168):
the path must exist and classify, otherwise a FileNotFoundError or
ValueError is raised. -/
def select_single (fs : FS) (fp : String) : Except SelErr (List String) :=
  if fs.files.contains fp || fs.dirs.contains fp then
    match get_collection_for_file fp with
    | some _ => .ok (sortPaths [fp])
    | none => .error .notInContextDir
  else .error .fileNotFound

/-- By-type branch of `get_files_to_reindex` (reindex.py lines 170-195):
unknown types raise; "md" is special-cased to scan both markdown
directories; a directory that does not exist is skipped. -/
def select_by_type (fs : FS) (t : String) : Except SelErr (List String) :=
  match TYPE_MAPPING.find? (fun e => e.1 == t) with
  | none => .error .unknownType
  | some e =>
    if t == "md" then
      .ok (sortPaths (collectDirs fs [("docs/adrs", "*.md"), ("docs/business", "*.md")] []))
    else
      .ok (sortPaths (if fs.dirs.contains e.2.1 then rglob fs e.2.1 e.2.2 else []))

/-- By-directory branch of `get_files_to_reindex` (reindex.py lines 197-209):
the directory must exist and be registered in some mapping, whose pattern
drives the recursive glob. -/
def select_by_dir (fs : FS) (d : String) : Except SelErr (List String) :=
  if fs.dirs.contains d then
    match COLLECTION_MAPPINGS.find? (fun e => e.2.directories.contains d) with
    | some e => .ok (sortPaths (rglob fs d e.2.file_pattern))
    | none => .error .dirNotContext
  else .error .dirNotFound

/-- All-files branch of `get_files_to_reindex` (reindex.py lines 211-217):
every mapping's directories, skipping the ones that do not exist. -/
def select_all (fs : FS) : Except SelErr (List String) :=
  .ok (sortPaths (collectDirs fs allDirPatterns []))

/-- `get_files_to_reindex` (reindex.py lines 145-219).  The three optional
arguments are tried in source order: explicit file, declared type, declared
directory, otherwise all context files.  Every success returns
`sorted(set(files))`. -/
def get_files_to_reindex (fs : FS) (file_path file_type directory : Option String) :
    Except SelErr (List String) :=
  match file_path with
  | some fp => select_single fs fp
  | none =>
    match file_type with
    | some t => select_by_type fs t
    | none =>
      match directory with
      | some d => select_by_dir fs d
      | none => select_all fs

/-- The metadata written with every document (reindex.py lines 252-256):
always exactly identifier, document type and collection name. -/
structure Metadata where
  file_path : String
  type : String
  collection : String
deriving DecidableEq, Repr

/-- One stored document: identifier, body, metadata. -/
abbrev DocEntry := String × String × Metadata

/-- The document store (the ChromaDB client), as the association list of its
collections; each collection is the list of its documents. -/
structure Store where
  collections : List (String × List DocEntry)
deriving DecidableEq, Repr

/-- Model of `[col.name for col in client.list_collections()]`
(chromadb.py line 126). -/
def Store.names (s : Store) : List String := s.collections.map Prod.fst

/-- Model of `client.get_collection(name=...)`: `none` when the collection is
missing, in which case the real client raises. -/
def Store.getCollection (s : Store) (n : String) : Option (List DocEntry) :=
  (s.collections.find? (fun e => e.1 == n)).map Prod.snd

/-- Replace the document with the given identifier, or append it; the store
effect shared by `collection.add` (id absent) and `collection.update`
(id present). -/
def upsertEntry (id content : String) (m : Metadata) : List DocEntry → List DocEntry
  | [] => [(id, content, m)]
  | e :: es => if e.1 == id then (id, content, m) :: es else e :: upsertEntry id content m es

/-- Apply `upsertEntry` inside the named collection. -/
def Store.upsert (s : Store) (cname id content : String) (m : Metadata) : Store :=
  ⟨s.collections.map (fun e => if e.1 == cname then (e.1, upsertEntry id content m e.2) else e)⟩

/-- Read one document back: the observation behind `collection.get(ids=[id])`. -/
def Store.lookup (s : Store) (cname id : String) : Option (String × Metadata) :=
  match s.getCollection cname with
  | none => none
  | some es => (es.find? (fun e => e.1 == id)).map Prod.snd

/-- `verify_collections` (chromadb.py lines 124-128): the required collections
absent from the store, in required order. -/
def verify_collections (s : Store) : List String :=
  REQUIRED_COLLECTIONS.filter (fun c => !(s.names.contains c))

/-- Model of `client.get_or_create_collection(name=...)`: create an empty
collection when the name is new, otherwise leave the store unchanged. -/
def get_or_create_collection (s : Store) (n : String) : Store :=
  if (s.collections.find? (fun e => e.1 == n)).isSome then s
  else ⟨s.collections ++ [(n, [])]⟩

/-- The bootstrap step of `reindex_command` (reindex.py lines 73-78): compute
the missing collections, then get-or-create each one; returns the
missing-list together with the resulting store. -/
def create_missing_collections (s : Store) : List String × Store :=
  let missing := verify_collections s
  (missing, missing.foldl get_or_create_collection s)

/-- One selected file as the engine sees it.  `content = none` models a
`read_text` that raises; the three flags model exceptions raised by the
store calls of `reindex_file` (existence check, `add`, `update`). -/
structure FileInput where
  path : String
  content : Option String
  getRaises : Bool
  addRaises : Bool
  updateRaises : Bool
deriving DecidableEq, Repr

/-- Per-file outcome string returned by `reindex_file`. -/
inductive Outcome
  | added
  | updated
  | skipped
deriving DecidableEq, Repr

/-- The exceptions `reindex_file` can raise. -/
inductive RErr
  | noCollection
  | noFileType
  | readFail
  | collectionMissing
  | addFail
  | updateFail
deriving DecidableEq, Repr

/-- `reindex_file` (reindex.py lines 222-277): classify the path, read the
file, fetch the collection handle, run the existence check (any exception
there is swallowed and treated as "does not exist", lines 245-249), then
update when the document exists and add when it does not. -/
def reindex_file (store : Store) (f : FileInput) : Except RErr (Outcome × Store) :=
  match get_collection_for_file f.path with
  | none => .error .noCollection
  | some collection_name =>
    match get_file_type f.path with
    | none => .error .noFileType
    | some file_type =>
      match f.content with
      | none => .error .readFail
      | some content =>
        match store.getCollection collection_name with
        | none => .error .collectionMissing
        | some coll =>
          if (if f.getRaises then false else ((coll.find? (fun e => e.1 == f.path)).isSome)) then
            if f.updateRaises then .error .updateFail
            else .ok (.updated,
              store.upsert collection_name f.path content ⟨f.path, file_type, collection_name⟩)
          else
            if f.addRaises then .error .addFail
            else .ok (.added,
              store.upsert collection_name f.path content ⟨f.path, file_type, collection_name⟩)

/-- The run summary dictionary (reindex.py lines 110-115). -/
structure Stats where
  added : Nat
  updated : Nat
  skipped : Nat
  errors : Nat
deriving DecidableEq, Repr

/-- Summary before any file is processed. -/
def initStats : Stats := ⟨0, 0, 0, 0⟩

/-- One iteration of the driving loop (reindex.py lines 124-135): reconcile
the file, count its outcome, and on any exception count an error and keep
the store as it was. -/
def stepFile (acc : Stats × Store) (f : FileInput) : Stats × Store :=
  match reindex_file acc.2 f with
  | .ok (.added, s) => ({ acc.1 with added := acc.1.added + 1 }, s)
  | .ok (.updated, s) => ({ acc.1 with updated := acc.1.updated + 1 }, s)
  | .ok (.skipped, s) => ({ acc.1 with skipped := acc.1.skipped + 1 }, s)
  | .error _ => ({ acc.1 with errors := acc.1.errors + 1 }, acc.2)

/-- The driving loop over the selected batch (reindex.py lines 124-135). -/
def runBatch (store : Store) (files : List FileInput) : Stats × Store :=
  files.foldl stepFile (initStats, store)

/-- Sufficient condition for `reindex_file` to raise whatever the store
contents: the file read raises, or both store writes raise (the claim's
"file read failure or store insert/update failure"). -/
def fileAlwaysFails (f : FileInput) : Bool :=
  f.content.isNone || (f.addRaises && f.updateRaises)

/-- Sufficient condition for `reindex_file` to succeed against any store with
the given collection names: the path classifies into an existing collection,
the read succeeds, and neither store write raises. -/
def fileAlwaysSucceeds (collNames : List String) (f : FileInput) : Bool :=
  (match get_collection_for_file f.path with
   | some c => collNames.contains c
   | none => false) && f.content.isSome && !f.addRaises && !f.updateRaises

/-- Calls observable at the document-store boundary. -/
inductive StoreCall
  | listCalls
  | getOrCreate (name : String)
  | getCollection (name : String)
  | getById (cname id : String)
  | insert (cname id content : String) (m : Metadata)
  | update (cname id content : String) (m : Metadata)
deriving DecidableEq, Repr

/-- Whether a store call writes to the store. -/
def StoreCall.mutates : StoreCall → Bool
  | .getOrCreate _ => true
  | .insert _ _ _ _ => true
  | .update _ _ _ _ => true
  | _ => false

/-- Store semantics of one call: writes change the store, reads do not. -/
def applyCall (s : Store) : StoreCall → Store
  | .getOrCreate n => get_or_create_collection s n
  | .insert c i b m => s.upsert c i b m
  | .update c i b m => s.upsert c i b m
  | _ => s

/-- Store semantics of a call trace. -/
def applyCalls (s : Store) (cs : List StoreCall) : Store := cs.foldl applyCall s

/-- One row of the dry-run table. -/
structure DryRow where
  path : String
  status : String
  action : String
deriving DecidableEq, Repr

/-- One file of `display_dry_run_report` (reindex.py lines 289-307): an
unclassifiable path yields an "Invalid/Skip" row with no store traffic;
otherwise the collection handle is fetched and the document looked up, a
lookup exception (modelled by `getRaises`) being reported as "New/Add". -/
def dryRunFile (store : Store) (f : FileInput) : DryRow × List StoreCall :=
  match get_collection_for_file f.path with
  | none => (⟨f.path, "Invalid", "Skip"⟩, [])
  | some cname =>
    (if f.getRaises then ⟨f.path, "New", "Add"⟩
     else
       match store.lookup cname f.path with
       | some _ => ⟨f.path, "Exists", "Update"⟩
       | none => ⟨f.path, "New", "Add"⟩,
     [StoreCall.getCollection cname, StoreCall.getById cname f.path])

/-- One accumulation step of the dry-run report: append the file's row and
its store calls. -/
def dryRunStep (store : Store) (acc : List DryRow × List StoreCall) (f : FileInput) :
    List DryRow × List StoreCall :=
  (acc.1 ++ [(dryRunFile store f).1], acc.2 ++ (dryRunFile store f).2)

/-- `display_dry_run_report` (reindex.py lines 280-309): the table rows and
the trace of store calls issued while building them. -/
def display_dry_run_report (store : Store) (files : List FileInput) :
    List DryRow × List StoreCall :=
  files.foldl (dryRunStep store) ([], [])

/-- A store holding the four required collections, all empty. -/
def store4 : Store :=
  ⟨[("business-and-architecture", []), ("features", []), ("tech-specs", []), ("uisi", [])]⟩

/-- A markdown architecture-decision file that reads successfully. -/
def fileGoodMd : FileInput := ⟨"docs/adrs/0001-choice.md", some "adr body", false, false, false⟩

/-- A feature file whose read raises. -/
def fileBadRead : FileInput := ⟨"docs/features/broken.feature", none, false, false, false⟩

/-- A feature file that reads successfully. -/
def fileGoodFeature : FileInput :=
  ⟨"docs/features/login.feature", some "Feature: login", false, false, false⟩

/-- The same feature file, a second pass with changed content. -/
def fileGoodFeature2 : FileInput :=
  ⟨"docs/features/login.feature", some "Feature: login v2", false, false, false⟩

/-- The feature file with its store existence check raising. -/
def fileGetRaises : FileInput :=
  ⟨"docs/features/login.feature", some "Feature: login", true, false, false⟩

/-- A store that already holds a document under the feature file's id. -/
def storeWithDoc : Store :=
  ⟨[("business-and-architecture", []),
    ("features",
      [("docs/features/login.feature", "old body",
        ⟨"docs/features/login.feature", "feature", "features"⟩)]),
    ("tech-specs", []), ("uisi", [])]⟩

/-- A small filesystem with markdown files in both markdown directories. -/
def fsDemo : FS :=
  ⟨["docs/adrs/0001-choice.md", "docs/business/plan.md", "docs/features/login.feature",
    "README.md"],
   ["docs", "docs/adrs", "docs/business", "docs/features"]⟩

/-- A filesystem holding a file in a sibling directory whose name shares the
registered directory's string prefix. -/
def fsSibling : FS :=
  ⟨["docs/featuresExtra/a.feature"], ["docs", "docs/featuresExtra"]⟩

/-- Containment in the table: some mapping's directory is a raw string
prefix of the path while the path matches that mapping's glob; the exact
test `get_collection_for_file` scans for. -/
def matchesSomeMapping (p : String) : Bool :=
  COLLECTION_MAPPINGS.any (fun e =>
    e.2.directories.any (fun d => strStartsWith p d && matchPattern e.2.file_pattern p))

/-! ## Lemmas on strings and the path order -/

theorem strEq_of_data (s t : String) (h : s.data = t.data) : s = t := by
  cases s; cases t; simp_all

theorem strStartsWith_weaken (p d suf : String) (h : strStartsWith p (d ++ suf) = true) :
    strStartsWith p d = true := by
  unfold strStartsWith at *
  rw [List.isPrefixOf_iff_prefix] at *
  have hd : (d ++ suf).data = d.data ++ suf.data := String.data_append d suf
  rw [hd] at h
  exact (List.prefix_append d.data suf.data).trans h

theorem sepRank_inj (a b : Char) (h : sepRank a = sepRank b) : a = b := by
  unfold sepRank at h
  by_cases ha : a = '/'
  · by_cases hb : b = '/'
    · rw [ha, hb]
    · simp [ha, hb] at h
  · by_cases hb : b = '/'
    · simp [ha, hb] at h
    · simp [ha, hb] at h
      have : a.val = b.val := by
        apply UInt32.ext
        exact h
      exact Char.eq_of_val_eq this

theorem keyLt_irrefl (l : List Char) : keyLt l l = false := by
  induction l with
  | nil => rfl
  | cons a as ih => simp [keyLt, ih]

theorem keyLt_trans (a b c : List Char) (hab : keyLt a b = true) (hbc : keyLt b c = true) :
    keyLt a c = true := by
  induction a generalizing b c with
  | nil =>
    cases b with
    | nil => simp [keyLt] at hab
    | cons bh bt =>
      cases c with
      | nil => simp [keyLt] at hbc
      | cons ch ct => rfl
  | cons ah as ih =>
    cases b with
    | nil => simp [keyLt] at hab
    | cons bh bt =>
      cases c with
      | nil => simp [keyLt] at hbc
      | cons ch ct =>
        simp only [keyLt, Bool.or_eq_true, Bool.and_eq_true, beq_iff_eq,
          decide_eq_true_eq] at hab hbc ⊢
        rcases hab with h1 | ⟨he1, h1⟩
        · rcases hbc with h2 | ⟨he2, h2⟩
          · exact Or.inl (Nat.lt_trans h1 h2)
          · rw [← he2]
            exact Or.inl h1
        · rcases hbc with h2 | ⟨he2, h2⟩
          · rw [he1]
            exact Or.inl h2
          · exact Or.inr ⟨he1.trans he2, ih bt ct h1 h2⟩

theorem keyLt_eq_of_not (a b : List Char) (hab : keyLt a b = false) (hba : keyLt b a = false) :
    a = b := by
  induction a generalizing b with
  | nil =>
    cases b with
    | nil => rfl
    | cons bh bt => simp [keyLt] at hab
  | cons ah as ih =>
    cases b with
    | nil => simp [keyLt] at hba
    | cons bh bt =>
      simp only [keyLt, Bool.or_eq_false_iff, Bool.and_eq_false_iff, beq_eq_false_iff_ne,
        ne_eq, decide_eq_false_iff_not] at hab hba
      have he : ah = bh :=
        sepRank_inj _ _ (Nat.le_antisymm (Nat.not_lt.mp hba.1) (Nat.not_lt.mp hab.1))
      have ht : as = bt := by
        rcases hab.2 with h | h
        · exact absurd he h
        · rcases hba.2 with h' | h'
          · exact absurd he.symm h'
          · exact ih bt h h'
      rw [he, ht]

theorem pathLt_trans (a b c : String) (hab : pathLt a b = true) (hbc : pathLt b c = true) :
    pathLt a c = true :=
  keyLt_trans _ _ _ hab hbc

theorem pathLt_eq_of_not (a b : String) (hab : pathLt a b = false) (hba : pathLt b a = false) :
    a = b :=
  strEq_of_data _ _ (keyLt_eq_of_not _ _ hab hba)

theorem pathLt_ne (a b : String) (h : pathLt a b = true) : a ≠ b := by
  intro he
  subst he
  rw [pathLt, keyLt_irrefl] at h
  exact Bool.noConfusion h

theorem insertPath_cons (x y : String) (ys : List String) :
    insertPath x (y :: ys) =
      if pathLt x y then x :: y :: ys else if x = y then y :: ys else y :: insertPath x ys :=
  rfl

theorem mem_insertPath (z x : String) (l : List String) :
    z ∈ insertPath x l ↔ z = x ∨ z ∈ l := by
  induction l with
  | nil => simp [insertPath]
  | cons y ys ih =>
    rw [insertPath_cons]
    by_cases h1 : pathLt x y = true
    · rw [if_pos h1]
      simp
    · rw [if_neg h1]
      by_cases h2 : x = y
      · rw [if_pos h2]
        subst h2
        simp only [List.mem_cons]
        tauto
      · rw [if_neg h2]
        simp only [List.mem_cons, ih]
        tauto

theorem pairwise_insertPath (x : String) (l : List String)
    (h : l.Pairwise (fun a b => pathLt a b = true)) :
    (insertPath x l).Pairwise (fun a b => pathLt a b = true) := by
  induction l with
  | nil => simp [insertPath]
  | cons y ys ih =>
    rcases List.pairwise_cons.mp h with ⟨hy, hys⟩
    rw [insertPath_cons]
    by_cases h1 : pathLt x y = true
    · rw [if_pos h1]
      refine List.pairwise_cons.mpr ⟨?_, h⟩
      intro z hz
      rcases List.mem_cons.mp hz with rfl | hz'
      · exact h1
      · exact pathLt_trans _ _ _ h1 (hy z hz')
    · rw [if_neg h1]
      by_cases h2 : x = y
      · rw [if_pos h2]
        exact h
      · rw [if_neg h2]
        have hyx : pathLt y x = true := by
          cases h3 : pathLt y x
          · exact absurd (pathLt_eq_of_not x y (by simpa using h1) h3) h2
          · rfl
        refine List.pairwise_cons.mpr ⟨?_, ih hys⟩
        intro z hz
        rcases (mem_insertPath z x ys).mp hz with rfl | hz'
        · exact hyx
        · exact hy z hz'

theorem sortPaths_pairwise (l : List String) :
    (sortPaths l).Pairwise (fun a b => pathLt a b = true) := by
  induction l with
  | nil => simp [sortPaths]
  | cons x xs ih => exact pairwise_insertPath x _ ih

theorem sortPaths_nodup (l : List String) : (sortPaths l).Nodup :=
  List.Pairwise.imp (fun h => pathLt_ne _ _ h) (sortPaths_pairwise l)

theorem mem_sortPaths (z : String) (l : List String) : z ∈ sortPaths l ↔ z ∈ l := by
  induction l with
  | nil => simp [sortPaths]
  | cons x xs ih =>
    show z ∈ insertPath x (sortPaths xs) ↔ _
    rw [mem_insertPath, ih]
    simp

/-! ## Lemmas on classification -/

theorem classify_agree (p c : String) (h : get_collection_for_file p = some c) :
    ∃ m, (c, m) ∈ COLLECTION_MAPPINGS ∧ get_file_type p = some m.type := by
  unfold get_collection_for_file at h
  unfold get_file_type
  cases hf : COLLECTION_MAPPINGS.find? (fun e =>
      e.2.directories.any (fun d => strStartsWith p d && matchPattern e.2.file_pattern p)) with
  | none =>
    rw [hf] at h
    exact absurd h (by simp)
  | some e =>
    rw [hf] at h
    simp at h
    refine ⟨e.2, ?_, by simp⟩
    have hmem := List.mem_of_find?_eq_some hf
    rw [← h]
    simpa using hmem

theorem classify_isSome_agree (p : String) :
    (get_collection_for_file p).isSome = (get_file_type p).isSome := by
  unfold get_collection_for_file get_file_type
  cases hf : COLLECTION_MAPPINGS.find? (fun e =>
      e.2.directories.any (fun d => strStartsWith p d && matchPattern e.2.file_pattern p)) <;>
    simp

theorem classify_none_of_no_match (p : String) (h : matchesSomeMapping p = false) :
    get_collection_for_file p = none ∧ get_file_type p = none := by
  unfold matchesSomeMapping at h
  have hall : COLLECTION_MAPPINGS.find? (fun e =>
      e.2.directories.any (fun d => strStartsWith p d && matchPattern e.2.file_pattern p)) =
        none := by
    rw [List.find?_eq_none]
    intro e he
    intro hpred
    have : COLLECTION_MAPPINGS.any (fun e =>
        e.2.directories.any (fun d => strStartsWith p d && matchPattern e.2.file_pattern p)) =
          true :=
      List.any_eq_true.mpr ⟨e, he, hpred⟩
    rw [h] at this
    exact Bool.noConfusion this
  constructor
  · unfold get_collection_for_file
    rw [hall]
    rfl
  · unfold get_file_type
    rw [hall]
    rfl

theorem classify_some_matches (p c : String) (h : get_collection_for_file p = some c) :
    matchesSomeMapping p = true := by
  cases hm : matchesSomeMapping p
  · rw [(classify_none_of_no_match p hm).1] at h
    exact Option.noConfusion h
  · rfl

theorem mem_rglob (fs : FS) (z d pat : String) :
    z ∈ rglob fs d pat ↔
      z ∈ fs.files ∧ isUnderDir z d = true ∧ matchPattern pat z = true := by
  unfold rglob
  rw [List.mem_filter]
  simp [Bool.and_eq_true]

theorem rglob_matches (fs : FS) (z d pat : String) (e : String × CollectionMapping)
    (he : e ∈ COLLECTION_MAPPINGS) (hd : d ∈ e.2.directories) (hpat : pat = e.2.file_pattern)
    (hz : z ∈ rglob fs d pat) : matchesSomeMapping z = true := by
  rcases (mem_rglob fs z d pat).mp hz with ⟨_, hu, hp⟩
  apply List.any_eq_true.mpr
  refine ⟨e, he, ?_⟩
  apply List.any_eq_true.mpr
  refine ⟨d, hd, ?_⟩
  rw [Bool.and_eq_true]
  constructor
  · exact strStartsWith_weaken z d "/" hu
  · rw [← hpat]
    exact hp

theorem mem_collectDirs (fs : FS) (dp : List (String × String)) (acc : List String)
    (z : String) :
    z ∈ collectDirs fs dp acc ↔
      z ∈ acc ∨ ∃ e ∈ dp, fs.dirs.contains e.1 = true ∧ z ∈ rglob fs e.1 e.2 := by
  induction dp generalizing acc with
  | nil => simp [collectDirs]
  | cons e es ih =>
    rw [show collectDirs fs (e :: es) acc =
      collectDirs fs es (acc ++ (if fs.dirs.contains e.1 then rglob fs e.1 e.2 else [])) from
        rfl]
    rw [ih]
    simp only [List.mem_append, List.mem_cons]
    constructor
    · rintro ((h | h) | ⟨w, hw, hc, hr⟩)
      · exact Or.inl h
      · by_cases hd : fs.dirs.contains e.1 = true
        · rw [if_pos hd] at h
          exact Or.inr ⟨e, Or.inl rfl, hd, h⟩
        · rw [if_neg hd] at h
          simp at h
      · exact Or.inr ⟨w, Or.inr hw, hc, hr⟩
    · rintro (h | ⟨w, (rfl | hw), hc, hr⟩)
      · exact Or.inl (Or.inl h)
      · refine Or.inl (Or.inr ?_)
        rw [if_pos hc]
        exact hr
      · exact Or.inr ⟨w, hw, hc, hr⟩

theorem mem_allDirPatterns (e : String × String) (he : e ∈ allDirPatterns) :
    ∃ m ∈ COLLECTION_MAPPINGS, e.1 ∈ m.2.directories ∧ e.2 = m.2.file_pattern := by
  revert he
  revert e
  decide

/-- Every (type, directory, pattern) row of the by-type table points at a
directory and pattern registered in the mapping table. -/
theorem type_mapping_registered (e : String × String × String) (he : e ∈ TYPE_MAPPING) :
    ∃ m ∈ COLLECTION_MAPPINGS, e.2.1 ∈ m.2.directories ∧ e.2.2 = m.2.file_pattern := by
  revert he
  revert e
  decide

/-! ## Per-mode lemmas on the file-set resolver -/

theorem select_single_excludes (fs : FS) (fp p : String) (l : List String)
    (hn : get_collection_for_file p = none)
    (h : select_single fs fp = .ok l) : p ∉ l := by
  unfold select_single at h
  by_cases hex : (fs.files.contains fp || fs.dirs.contains fp) = true
  · rw [if_pos hex] at h
    cases hgf : get_collection_for_file fp with
    | none =>
      rw [hgf] at h
      exact Except.noConfusion h
    | some c =>
      rw [hgf] at h
      have hl := Except.ok.inj h
      intro hmem
      rw [← hl, mem_sortPaths] at hmem
      simp at hmem
      subst hmem
      rw [hn] at hgf
      exact Option.noConfusion hgf
  · rw [if_neg hex] at h
    exact Except.noConfusion h

theorem select_by_type_excludes (fs : FS) (t p : String) (l : List String)
    (hm : matchesSomeMapping p = false)
    (h : select_by_type fs t = .ok l) : p ∉ l := by
  unfold select_by_type at h
  cases hft : TYPE_MAPPING.find? (fun e => e.1 == t) with
  | none =>
    rw [hft] at h
    exact Except.noConfusion h
  | some e =>
    rw [hft] at h
    have hmemTM := List.mem_of_find?_eq_some hft
    have h2 : (if (t == "md") = true then
        Except.ok (ε := SelErr)
          (sortPaths (collectDirs fs [("docs/adrs", "*.md"), ("docs/business", "*.md")] []))
      else
        Except.ok (sortPaths (if fs.dirs.contains e.2.1 then rglob fs e.2.1 e.2.2 else [])))
        = Except.ok l := h
    by_cases hmd : (t == "md") = true
    · rw [if_pos hmd] at h2
      have hl := Except.ok.inj h2
      intro hmem
      rw [← hl, mem_sortPaths, mem_collectDirs] at hmem
      rcases hmem with hmem | ⟨w, hw, hc, hr⟩
      · simp at hmem
      · have hmm : matchesSomeMapping p = true := by
          rcases List.mem_cons.mp hw with rfl | hw2
          · exact rglob_matches fs p "docs/adrs" "*.md"
              ("business-and-architecture", ⟨["docs/adrs", "docs/business"], "*.md", "adr"⟩)
              (by decide) (by decide) rfl hr
          · rcases List.mem_cons.mp hw2 with rfl | hw3
            · exact rglob_matches fs p "docs/business" "*.md"
                ("business-and-architecture", ⟨["docs/adrs", "docs/business"], "*.md", "adr"⟩)
                (by decide) (by decide) rfl hr
            · simp at hw3
        rw [hm] at hmm
        exact Bool.noConfusion hmm
    · rw [if_neg hmd] at h2
      have hl := Except.ok.inj h2
      intro hmem
      rw [← hl, mem_sortPaths] at hmem
      by_cases hdc : fs.dirs.contains e.2.1 = true
      · rw [if_pos hdc] at hmem
        obtain ⟨m, hmC, hdm, hpm⟩ := type_mapping_registered e hmemTM
        have hmm := rglob_matches fs p e.2.1 e.2.2 m hmC hdm hpm hmem
        rw [hm] at hmm
        exact Bool.noConfusion hmm
      · rw [if_neg hdc] at hmem
        simp at hmem

theorem select_by_dir_excludes (fs : FS) (d p : String) (l : List String)
    (hm : matchesSomeMapping p = false)
    (h : select_by_dir fs d = .ok l) : p ∉ l := by
  unfold select_by_dir at h
  by_cases hex : fs.dirs.contains d = true
  · rw [if_pos hex] at h
    cases hfd : COLLECTION_MAPPINGS.find? (fun e => e.2.directories.contains d) with
    | none =>
      rw [hfd] at h
      exact Except.noConfusion h
    | some e =>
      rw [hfd] at h
      have hmemC := List.mem_of_find?_eq_some hfd
      have hpred := List.find?_some hfd
      have hd : d ∈ e.2.directories := by simpa using hpred
      have hl := Except.ok.inj h
      intro hmem
      rw [← hl, mem_sortPaths] at hmem
      have hmm := rglob_matches fs p d e.2.file_pattern e hmemC hd rfl hmem
      rw [hm] at hmm
      exact Bool.noConfusion hmm
  · rw [if_neg hex] at h
    exact Except.noConfusion h

theorem select_all_excludes (fs : FS) (p : String) (l : List String)
    (hm : matchesSomeMapping p = false)
    (h : select_all fs = .ok l) : p ∉ l := by
  unfold select_all at h
  have hl := Except.ok.inj h
  intro hmem
  rw [← hl, mem_sortPaths, mem_collectDirs] at hmem
  rcases hmem with hmem | ⟨w, hw, hc, hr⟩
  · simp at hmem
  · obtain ⟨m, hmC, hdm, hpm⟩ := mem_allDirPatterns w hw
    have hmm := rglob_matches fs p w.1 w.2 m hmC hdm hpm hr
    rw [hm] at hmm
    exact Bool.noConfusion hmm

theorem select_single_ok_sorted (fs : FS) (fp : String) (l : List String)
    (h : select_single fs fp = .ok l) : ∃ l0, l = sortPaths l0 := by
  unfold select_single at h
  by_cases hex : (fs.files.contains fp || fs.dirs.contains fp) = true
  · rw [if_pos hex] at h
    cases hgf : get_collection_for_file fp with
    | none =>
      rw [hgf] at h
      exact Except.noConfusion h
    | some c =>
      rw [hgf] at h
      exact ⟨[fp], (Except.ok.inj h).symm⟩
  · rw [if_neg hex] at h
    exact Except.noConfusion h

theorem select_by_type_ok_sorted (fs : FS) (t : String) (l : List String)
    (h : select_by_type fs t = .ok l) : ∃ l0, l = sortPaths l0 := by
  unfold select_by_type at h
  cases hft : TYPE_MAPPING.find? (fun e => e.1 == t) with
  | none =>
    rw [hft] at h
    exact Except.noConfusion h
  | some e =>
    rw [hft] at h
    have h2 : (if (t == "md") = true then
        Except.ok (ε := SelErr)
          (sortPaths (collectDirs fs [("docs/adrs", "*.md"), ("docs/business", "*.md")] []))
      else
        Except.ok (sortPaths (if fs.dirs.contains e.2.1 then rglob fs e.2.1 e.2.2 else [])))
        = Except.ok l := h
    by_cases hmd : (t == "md") = true
    · rw [if_pos hmd] at h2
      exact ⟨_, (Except.ok.inj h2).symm⟩
    · rw [if_neg hmd] at h2
      exact ⟨_, (Except.ok.inj h2).symm⟩

theorem select_by_dir_ok_sorted (fs : FS) (d : String) (l : List String)
    (h : select_by_dir fs d = .ok l) : ∃ l0, l = sortPaths l0 := by
  unfold select_by_dir at h
  by_cases hex : fs.dirs.contains d = true
  · rw [if_pos hex] at h
    cases hfd : COLLECTION_MAPPINGS.find? (fun e => e.2.directories.contains d) with
    | none =>
      rw [hfd] at h
      exact Except.noConfusion h
    | some e =>
      rw [hfd] at h
      exact ⟨_, (Except.ok.inj h).symm⟩
  · rw [if_neg hex] at h
    exact Except.noConfusion h

theorem select_all_ok_sorted (fs : FS) (l : List String)
    (h : select_all fs = .ok l) : ∃ l0, l = sortPaths l0 :=
  ⟨_, (Except.ok.inj h).symm⟩

/-! ## Lemmas on the store -/

theorem names_upsert (s : Store) (cname id c : String) (m : Metadata) :
    (s.upsert cname id c m).names = s.names := by
  unfold Store.upsert Store.names
  simp only [List.map_map]
  apply List.map_congr_left
  intro e _
  by_cases h : e.1 = cname <;> simp [h]

theorem getCollection_of_contains (s : Store) (n : String)
    (h : s.names.contains n = true) : ∃ es, s.getCollection n = some es := by
  unfold Store.names at h
  unfold Store.getCollection
  have hmem : n ∈ s.collections.map Prod.fst := by simpa using h
  rcases List.mem_map.mp hmem with ⟨e, he, hfst⟩
  have hsome : (s.collections.find? (fun e => e.1 == n)).isSome := by
    rw [List.find?_isSome]
    exact ⟨e, he, by simp [hfst]⟩
  rcases Option.isSome_iff_exists.mp hsome with ⟨x, hx⟩
  rw [hx]
  exact ⟨x.2, rfl⟩

theorem find?_map_upsert (l : List (String × List DocEntry)) (n id c : String) (m : Metadata)
    (es : List DocEntry)
    (h : (l.find? (fun e => e.1 == n)).map Prod.snd = some es) :
    ((l.map (fun e => if e.1 == n then (e.1, upsertEntry id c m e.2) else e)).find?
        (fun e => e.1 == n)).map Prod.snd = some (upsertEntry id c m es) := by
  induction l with
  | nil => simp at h
  | cons e l ih =>
    by_cases he : (e.1 == n) = true
    · rw [List.find?_cons, he] at h
      have h2 : e.2 = es := Option.some.inj h
      rw [List.map_cons, List.find?_cons]
      have hhead : ((if (e.1 == n) = true then (e.1, upsertEntry id c m e.2) else e).1 == n)
          = true := by
        rw [if_pos he]
        exact he
      rw [hhead, if_pos he]
      show some (upsertEntry id c m e.2) = some (upsertEntry id c m es)
      rw [h2]
    · have heq : (e.1 == n) = false := by simpa using he
      rw [List.find?_cons, heq] at h
      rw [List.map_cons, List.find?_cons]
      have hhead : ((if (e.1 == n) = true then (e.1, upsertEntry id c m e.2) else e).1 == n)
          = false := by
        rw [if_neg he]
        exact heq
      rw [hhead]
      exact ih h

theorem getCollection_upsert_self (s : Store) (n : String) (es : List DocEntry)
    (id c : String) (m : Metadata) (h : s.getCollection n = some es) :
    (s.upsert n id c m).getCollection n = some (upsertEntry id c m es) := by
  unfold Store.getCollection Store.upsert at *
  exact find?_map_upsert s.collections n id c m es h

theorem find?_upsertEntry (id c : String) (m : Metadata) (es : List DocEntry) :
    (upsertEntry id c m es).find? (fun e => e.1 == id) = some (id, c, m) := by
  induction es with
  | nil => simp [upsertEntry, List.find?_cons]
  | cons e es ih =>
    by_cases he : (e.1 == id) = true
    · simp [upsertEntry, he, List.find?_cons]
    · have heq : (e.1 == id) = false := by simpa using he
      have hrw : upsertEntry id c m (e :: es) = e :: upsertEntry id c m es := by
        show (if (e.1 == id) = true then (id, c, m) :: es else e :: upsertEntry id c m es) = _
        rw [if_neg he]
      rw [hrw, List.find?_cons, heq]
      exact ih

theorem lookup_upsert_self (s : Store) (n : String) (es : List DocEntry)
    (id c : String) (m : Metadata) (h : s.getCollection n = some es) :
    (s.upsert n id c m).lookup n id = some (c, m) := by
  unfold Store.lookup
  rw [getCollection_upsert_self s n es id c m h]
  show ((upsertEntry id c m es).find? (fun e => e.1 == id)).map Prod.snd = some (c, m)
  rw [find?_upsertEntry]
  rfl

/-! ## Lemmas on the reconciliation engine -/

theorem reindex_ok_outcome (s : Store) (f : FileInput) (o : Outcome) (s' : Store)
    (h : reindex_file s f = .ok (o, s')) :
    (o = .added ∨ o = .updated) ∧ s'.names = s.names := by
  unfold reindex_file at h
  cases hg : get_collection_for_file f.path with
  | none =>
    simp only [hg] at h
    exact Except.noConfusion h
  | some c =>
    simp only [hg] at h
    cases hgt : get_file_type f.path with
    | none =>
      simp only [hgt] at h
      exact Except.noConfusion h
    | some t =>
      simp only [hgt] at h
      cases hcn : f.content with
      | none =>
        simp only [hcn] at h
        exact Except.noConfusion h
      | some content =>
        simp only [hcn] at h
        cases hgc : s.getCollection c with
        | none =>
          simp only [hgc] at h
          exact Except.noConfusion h
        | some coll =>
          simp only [hgc] at h
          by_cases hex :
              (if f.getRaises then false
               else ((coll.find? (fun e => e.1 == f.path)).isSome)) = true
          · rw [if_pos hex] at h
            by_cases hu : f.updateRaises = true
            · rw [if_pos hu] at h
              exact Except.noConfusion h
            · rw [if_neg hu] at h
              obtain ⟨h1, h2⟩ := Prod.mk.inj (Except.ok.inj h)
              subst h1
              subst h2
              exact ⟨Or.inr rfl, names_upsert _ _ _ _ _⟩
          · rw [if_neg hex] at h
            by_cases ha : f.addRaises = true
            · rw [if_pos ha] at h
              exact Except.noConfusion h
            · rw [if_neg ha] at h
              obtain ⟨h1, h2⟩ := Prod.mk.inj (Except.ok.inj h)
              subst h1
              subst h2
              exact ⟨Or.inl rfl, names_upsert _ _ _ _ _⟩

theorem fileAlwaysSucceeds_ok (s : Store) (f : FileInput)
    (h : fileAlwaysSucceeds s.names f = true) :
    ∃ o s', reindex_file s f = .ok (o, s') ∧ (o = .added ∨ o = .updated) ∧
      s'.names = s.names := by
  unfold fileAlwaysSucceeds at h
  cases hg : get_collection_for_file f.path with
  | none =>
    rw [hg] at h
    simp at h
  | some c =>
    rw [hg] at h
    simp only [Bool.and_eq_true, Bool.not_eq_true'] at h
    obtain ⟨⟨⟨hm, hcont⟩, hadd⟩, hupd⟩ := h
    obtain ⟨es, hes⟩ := getCollection_of_contains s c hm
    obtain ⟨mp, hmem, ht⟩ := classify_agree _ _ hg
    rcases Option.isSome_iff_exists.mp hcont with ⟨content, hcontent⟩
    by_cases hex :
        (if f.getRaises then false else ((es.find? (fun e => e.1 == f.path)).isSome)) = true
    · refine ⟨.updated, s.upsert c f.path content ⟨f.path, mp.type, c⟩, ?_, Or.inr rfl,
        names_upsert _ _ _ _ _⟩
      unfold reindex_file
      simp only [hg, ht, hcontent, hes]
      rw [if_pos hex, if_neg (by simp [hupd])]
    · refine ⟨.added, s.upsert c f.path content ⟨f.path, mp.type, c⟩, ?_, Or.inl rfl,
        names_upsert _ _ _ _ _⟩
      unfold reindex_file
      simp only [hg, ht, hcontent, hes]
      rw [if_neg hex, if_neg (by simp [hadd])]

theorem fileAlwaysFails_err (s : Store) (f : FileInput) (h : fileAlwaysFails f = true) :
    ∃ e, reindex_file s f = .error e := by
  unfold fileAlwaysFails at h
  cases hg : get_collection_for_file f.path with
  | none =>
    refine ⟨.noCollection, ?_⟩
    unfold reindex_file
    simp only [hg]
  | some c =>
    obtain ⟨mp, hmem, ht⟩ := classify_agree _ _ hg
    cases hcn : f.content with
    | none =>
      refine ⟨.readFail, ?_⟩
      unfold reindex_file
      simp only [hg, ht, hcn]
    | some content =>
      rw [hcn] at h
      simp at h
      cases hgc : s.getCollection c with
      | none =>
        refine ⟨.collectionMissing, ?_⟩
        unfold reindex_file
        simp only [hg, ht, hcn, hgc]
      | some coll =>
        by_cases hex :
            (if f.getRaises then false else ((coll.find? (fun e => e.1 == f.path)).isSome))
              = true
        · refine ⟨.updateFail, ?_⟩
          unfold reindex_file
          simp only [hg, ht, hcn, hgc]
          rw [if_pos hex, if_pos h.2]
        · refine ⟨.addFail, ?_⟩
          unfold reindex_file
          simp only [hg, ht, hcn, hgc]
          rw [if_neg hex, if_pos h.1]

theorem foldl_stepFile_good (files : List FileInput) (acc : Stats × Store)
    (h : ∀ f ∈ files, fileAlwaysSucceeds acc.2.names f = true) :
    (files.foldl stepFile acc).1.errors = acc.1.errors ∧
    (files.foldl stepFile acc).1.skipped = acc.1.skipped ∧
    (files.foldl stepFile acc).1.added + (files.foldl stepFile acc).1.updated
      = acc.1.added + acc.1.updated + files.length ∧
    (files.foldl stepFile acc).2.names = acc.2.names := by
  induction files generalizing acc with
  | nil => simp
  | cons f fs ih =>
    obtain ⟨o, s', hok, ho, hnames⟩ := fileAlwaysSucceeds_ok acc.2 f (h f (by simp))
    rw [List.foldl_cons]
    rcases ho with rfl | rfl
    · have hstep : stepFile acc f = ({ acc.1 with added := acc.1.added + 1 }, s') := by
        unfold stepFile
        rw [hok]
      rw [hstep]
      have hnext : ∀ g ∈ fs,
          fileAlwaysSucceeds ({ acc.1 with added := acc.1.added + 1 }, s').2.names g
            = true := by
        intro g hg
        show fileAlwaysSucceeds s'.names g = true
        rw [hnames]
        exact h g (List.mem_cons_of_mem f hg)
      obtain ⟨e1, e2, e3, e4⟩ := ih _ hnext
      refine ⟨e1, e2, ?_, e4.trans hnames⟩
      rw [e3]
      simp only [List.length_cons]
      show acc.1.added + 1 + acc.1.updated + fs.length = _
      omega
    · have hstep : stepFile acc f = ({ acc.1 with updated := acc.1.updated + 1 }, s') := by
        unfold stepFile
        rw [hok]
      rw [hstep]
      have hnext : ∀ g ∈ fs,
          fileAlwaysSucceeds ({ acc.1 with updated := acc.1.updated + 1 }, s').2.names g
            = true := by
        intro g hg
        show fileAlwaysSucceeds s'.names g = true
        rw [hnames]
        exact h g (List.mem_cons_of_mem f hg)
      obtain ⟨e1, e2, e3, e4⟩ := ih _ hnext
      refine ⟨e1, e2, ?_, e4.trans hnames⟩
      rw [e3]
      simp only [List.length_cons]
      show acc.1.added + (acc.1.updated + 1) + fs.length = _
      omega

theorem foldl_stepFile_skipped (files : List FileInput) (acc : Stats × Store) :
    (files.foldl stepFile acc).1.skipped = acc.1.skipped := by
  induction files generalizing acc with
  | nil => rfl
  | cons f fs ih =>
    rw [List.foldl_cons, ih]
    unfold stepFile
    cases hok : reindex_file acc.2 f with
    | error e => rfl
    | ok p =>
      obtain ⟨o, s'⟩ := p
      rcases (reindex_ok_outcome _ _ _ _ hok).1 with rfl | rfl <;> rfl

/-! ## Lemmas on the collection bootstrapper -/

theorem contains_names_goc_self (s : Store) (n : String) :
    (get_or_create_collection s n).names.contains n = true := by
  unfold get_or_create_collection
  by_cases h : ((s.collections.find? (fun e => e.1 == n)).isSome) = true
  · rw [if_pos h]
    rcases Option.isSome_iff_exists.mp h with ⟨e, he⟩
    have hmem := List.mem_of_find?_eq_some he
    have hp := List.find?_some he
    have hn : n ∈ s.names := by
      unfold Store.names
      exact List.mem_map.mpr ⟨e, hmem, by simpa using hp⟩
    simpa using hn
  · rw [if_neg h]
    show (Store.names ⟨s.collections ++ [(n, [])]⟩).contains n = true
    unfold Store.names
    simp

theorem contains_names_goc_mono (s : Store) (n c : String)
    (h : s.names.contains c = true) :
    (get_or_create_collection s n).names.contains c = true := by
  unfold get_or_create_collection
  by_cases hf : ((s.collections.find? (fun e => e.1 == n)).isSome) = true
  · rw [if_pos hf]
    exact h
  · rw [if_neg hf]
    show (Store.names ⟨s.collections ++ [(n, [])]⟩).contains c = true
    unfold Store.names at *
    simp at h ⊢
    exact Or.inl h

theorem foldl_goc_contains (l : List String) (s : Store) (c : String)
    (h : c ∈ l ∨ s.names.contains c = true) :
    ((l.foldl get_or_create_collection s).names.contains c) = true := by
  induction l generalizing s with
  | nil =>
    rcases h with h | h
    · simp at h
    · exact h
  | cons a l ih =>
    rw [List.foldl_cons]
    apply ih
    rcases h with h | h
    · rcases List.mem_cons.mp h with rfl | h'
      · exact Or.inr (contains_names_goc_self s c)
      · exact Or.inl h'
    · exact Or.inr (contains_names_goc_mono s a c h)

theorem verify_collections_nil_of_all (s : Store)
    (h : ∀ c ∈ REQUIRED_COLLECTIONS, s.names.contains c = true) :
    verify_collections s = [] := by
  unfold verify_collections
  rw [List.filter_eq_nil_iff]
  intro c hc
  have hcc := h c hc
  simp at hcc ⊢
  exact hcc

/-! ## Lemmas on the dry-run report -/

theorem dryRunFile_no_mutate (store : Store) (f : FileInput) :
    ∀ call ∈ (dryRunFile store f).2, call.mutates = false := by
  unfold dryRunFile
  cases hg : get_collection_for_file f.path with
  | none => simp
  | some c =>
    intro call hc
    simp only [List.mem_cons, List.not_mem_nil, or_false] at hc
    rcases hc with rfl | rfl
    · rfl
    · rfl

theorem foldl_dryRunStep_no_mutate (store : Store) (files : List FileInput)
    (acc : List DryRow × List StoreCall)
    (hacc : ∀ call ∈ acc.2, call.mutates = false) :
    ∀ call ∈ (files.foldl (dryRunStep store) acc).2, call.mutates = false := by
  induction files generalizing acc with
  | nil => exact hacc
  | cons f fs ih =>
    rw [List.foldl_cons]
    apply ih
    intro call hc
    rcases List.mem_append.mp hc with h | h
    · exact hacc call h
    · exact dryRunFile_no_mutate store f call h

theorem applyCalls_id (s : Store) (cs : List StoreCall)
    (h : ∀ call ∈ cs, call.mutates = false) : applyCalls s cs = s := by
  induction cs generalizing s with
  | nil => rfl
  | cons c cs ih =>
    have hc := h c (List.mem_cons_self c cs)
    have hstep : applyCall s c = s := by
      cases c with
      | listCalls => rfl
      | getOrCreate n => simp [StoreCall.mutates] at hc
      | getCollection n => rfl
      | getById a b => rfl
      | insert a b d m => simp [StoreCall.mutates] at hc
      | update a b d m => simp [StoreCall.mutates] at hc
    show (c :: cs).foldl applyCall s = s
    rw [List.foldl_cons, hstep]
    exact ih s (fun call hcall => h call (List.mem_cons_of_mem c hcall))

theorem stepFile_error (acc : Stats × Store) (f : FileInput) (e : RErr)
    (h : reindex_file acc.2 f = .error e) :
    stepFile acc f = ({ acc.1 with errors := acc.1.errors + 1 }, acc.2) := by
  unfold stepFile
  rw [h]

/-! ## The claims -/

/-- C1: an exception raised while reconciling one file of a batch is caught
at the per-file boundary and counted as an errored outcome for that file
only, and the remaining files continue to be processed: for a batch
`pre ++ bad :: post` where `bad` raises independently of the store (its read
fails, or both store writes fail) and every other file reconciles cleanly,
the summary counts exactly one error, the other files all reach added or
updated, and nothing is skipped. -/
theorem reindex_error_isolation (store : Store) (pre post : List FileInput) (bad : FileInput)
    (hbad : fileAlwaysFails bad = true)
    (hpre : ∀ f ∈ pre, fileAlwaysSucceeds store.names f = true)
    (hpost : ∀ f ∈ post, fileAlwaysSucceeds store.names f = true) :
    (runBatch store (pre ++ bad :: post)).1.errors = 1 ∧
    (runBatch store (pre ++ bad :: post)).1.added
      + (runBatch store (pre ++ bad :: post)).1.updated = pre.length + post.length ∧
    (runBatch store (pre ++ bad :: post)).1.skipped = 0 := by
  obtain ⟨p1, p2, p3, p4⟩ :=
    foldl_stepFile_good pre (initStats, store) (fun f hf => hpre f hf)
  obtain ⟨err, herr⟩ := fileAlwaysFails_err (pre.foldl stepFile (initStats, store)).2 bad hbad
  have hstepbad := stepFile_error (pre.foldl stepFile (initStats, store)) bad err herr
  obtain ⟨q1, q2, q3, q4⟩ := foldl_stepFile_good post
    ({ (pre.foldl stepFile (initStats, store)).1 with
        errors := (pre.foldl stepFile (initStats, store)).1.errors + 1 },
      (pre.foldl stepFile (initStats, store)).2)
    (fun f hf => by
      show fileAlwaysSucceeds (pre.foldl stepFile (initStats, store)).2.names f = true
      rw [p4]
      exact hpost f hf)
  have hrun : runBatch store (pre ++ bad :: post) =
      post.foldl stepFile
        ({ (pre.foldl stepFile (initStats, store)).1 with
            errors := (pre.foldl stepFile (initStats, store)).1.errors + 1 },
          (pre.foldl stepFile (initStats, store)).2) := by
    unfold runBatch
    rw [List.foldl_append, List.foldl_cons, hstepbad]
  rw [hrun]
  have p1' : (pre.foldl stepFile (initStats, store)).1.errors = 0 := by
    rw [p1]
    rfl
  have p2' : (pre.foldl stepFile (initStats, store)).1.skipped = 0 := by
    rw [p2]
    rfl
  have p3' : (pre.foldl stepFile (initStats, store)).1.added
      + (pre.foldl stepFile (initStats, store)).1.updated = pre.length := by
    rw [p3]
    simp [initStats]
  refine ⟨?_, ?_, ?_⟩
  · rw [q1]
    show (pre.foldl stepFile (initStats, store)).1.errors + 1 = 1
    rw [p1']
  · rw [q3]
    show (pre.foldl stepFile (initStats, store)).1.added
        + (pre.foldl stepFile (initStats, store)).1.updated + post.length
        = pre.length + post.length
    rw [p3']
  · rw [q2]
    show (pre.foldl stepFile (initStats, store)).1.skipped = 0
    exact p2'

/-- Witness for C1: in a three-file batch whose middle file is unreadable,
the run reports one error while both neighbours still reconcile. -/
theorem reindex_error_isolation_witness :
    (runBatch store4 ([fileGoodMd] ++ fileBadRead :: [fileGoodFeature])).1.errors = 1 ∧
    (runBatch store4 ([fileGoodMd] ++ fileBadRead :: [fileGoodFeature])).1.added
      + (runBatch store4 ([fileGoodMd] ++ fileBadRead :: [fileGoodFeature])).1.updated
      = [fileGoodMd].length + [fileGoodFeature].length ∧
    (runBatch store4 ([fileGoodMd] ++ fileBadRead :: [fileGoodFeature])).1.skipped = 0 :=
  reindex_error_isolation store4 [fileGoodMd] [fileGoodFeature] fileBadRead (by decide)
    (by decide) (by decide)

/-- C2: reconciling a classified file twice against a store that holds its
collection but not yet the document yields added then updated, never added
twice, and afterwards the stored content under the file's relative-path
identifier is the content supplied on the second run, with the three-field
metadata. -/
theorem reconcile_twice_added_then_updated (store : Store) (f f2 : FileInput)
    (cname c1 c2 : String)
    (hp : f2.path = f.path)
    (hc : get_collection_for_file f.path = some cname)
    (hcol : store.names.contains cname = true)
    (habsent : store.lookup cname f.path = none)
    (h1 : f.content = some c1) (h2 : f2.content = some c2)
    (hg1 : f.getRaises = false) (ha1 : f.addRaises = false)
    (hg2 : f2.getRaises = false) (hu2 : f2.updateRaises = false) :
    ∃ t s1 s2,
      get_file_type f.path = some t ∧
      reindex_file store f = .ok (.added, s1) ∧
      reindex_file s1 f2 = .ok (.updated, s2) ∧
      s2.lookup cname f.path = some (c2, ⟨f.path, t, cname⟩) := by
  obtain ⟨mp, hmem, ht⟩ := classify_agree _ _ hc
  obtain ⟨es, hes⟩ := getCollection_of_contains store cname hcol
  have hfind : es.find? (fun e => e.1 == f.path) = none := by
    have hl := habsent
    unfold Store.lookup at hl
    simp only [hes] at hl
    cases hf : es.find? (fun e => e.1 == f.path) with
    | none => rfl
    | some e =>
      rw [hf] at hl
      exact absurd hl (by simp)
  have hrun1 : reindex_file store f
      = .ok (.added, store.upsert cname f.path c1 ⟨f.path, mp.type, cname⟩) := by
    unfold reindex_file
    simp only [hc, ht, h1, hes]
    have hcond : (if f.getRaises then false else ((es.find? (fun e => e.1 == f.path)).isSome))
        = false := by
      rw [if_neg (by simp [hg1]), hfind]
      rfl
    rw [hcond, if_neg (by simp), if_neg (by simp [ha1])]
  have hes1 : (store.upsert cname f.path c1 ⟨f.path, mp.type, cname⟩).getCollection cname
      = some (upsertEntry f.path c1 ⟨f.path, mp.type, cname⟩ es) :=
    getCollection_upsert_self store cname es f.path c1 _ hes
  have hrun2 : reindex_file (store.upsert cname f.path c1 ⟨f.path, mp.type, cname⟩) f2
      = .ok (.updated,
        (store.upsert cname f.path c1 ⟨f.path, mp.type, cname⟩).upsert cname f.path c2
          ⟨f.path, mp.type, cname⟩) := by
    unfold reindex_file
    rw [hp]
    simp only [hc, ht, h2, hes1]
    have hcond2 : (if f2.getRaises then false
        else (((upsertEntry f.path c1 ⟨f.path, mp.type, cname⟩ es).find?
          (fun e => e.1 == f.path)).isSome)) = true := by
      rw [if_neg (by simp [hg2]), find?_upsertEntry]
      rfl
    rw [hcond2, if_pos rfl, if_neg (by simp [hu2])]
  refine ⟨mp.type, _, _, ht, hrun1, hrun2, ?_⟩
  exact lookup_upsert_self _ cname _ f.path c2 _ hes1

/-- Witness for C2: the feature file against the freshly bootstrapped store,
reconciled twice with changed content. -/
theorem reconcile_twice_added_then_updated_witness :
    ∃ t s1 s2,
      get_file_type fileGoodFeature.path = some t ∧
      reindex_file store4 fileGoodFeature = .ok (.added, s1) ∧
      reindex_file s1 fileGoodFeature2 = .ok (.updated, s2) ∧
      s2.lookup "features" fileGoodFeature.path
        = some ("Feature: login v2", ⟨fileGoodFeature.path, t, "features"⟩) :=
  reconcile_twice_added_then_updated store4 fileGoodFeature fileGoodFeature2 "features"
    "Feature: login" "Feature: login v2" rfl (by decide) (by decide) (by decide) rfl rfl
    rfl rfl rfl rfl

/-- C3 counterexample: `docs/featuresExtra/a.feature` lies outside every
registered source directory in the path-segment sense, yet classification
returns the `features` collection instead of no match, and single-file
selection accepts it — the source tests containment by raw string prefix on
the relative path, so a sibling directory sharing a registered directory's
prefix is treated as inside it.  This refutes the claim as stated. -/
theorem classification_prefix_false_positive :
    (REGISTERED_DIRECTORIES.all
      (fun d => !(isUnderDir "docs/featuresExtra/a.feature" d))) = true ∧
    get_collection_for_file "docs/featuresExtra/a.feature" = some "features" ∧
    get_files_to_reindex fsSibling (some "docs/featuresExtra/a.feature") none none
      = .ok ["docs/featuresExtra/a.feature"] := by
  refine ⟨by decide, by decide, ?_⟩
  rfl

/-- C3 (amended): with containment read as the code's raw string-prefix test
combined with the glob match (so a sibling directory sharing a registered
directory's string prefix counts as inside it), every path matching no
mapping classifies as none, has no file type, and is excluded from the
result set of every selection mode. -/
theorem classification_none_excluded (fs : FS) (p : String)
    (h : matchesSomeMapping p = false) :
    get_collection_for_file p = none ∧ get_file_type p = none ∧
    ∀ fp t d l, get_files_to_reindex fs fp t d = .ok l → p ∉ l := by
  obtain ⟨hn, hnt⟩ := classify_none_of_no_match p h
  refine ⟨hn, hnt, ?_⟩
  intro fp t d l hok
  cases fp with
  | some fp' => exact select_single_excludes fs fp' p l hn hok
  | none =>
    cases t with
    | some t' => exact select_by_type_excludes fs t' p l h hok
    | none =>
      cases d with
      | some d' => exact select_by_dir_excludes fs d' p l h hok
      | none => exact select_all_excludes fs p l h hok

/-- Witness for the amended C3: `README.md` matches no mapping, classifies
as none, and appears in no selection result over the demo filesystem. -/
theorem classification_none_excluded_witness :
    get_collection_for_file "README.md" = none ∧ get_file_type "README.md" = none ∧
    ∀ fp t d l, get_files_to_reindex fsDemo fp t d = .ok l → "README.md" ∉ l :=
  classification_none_excluded fsDemo "README.md" (by decide)

/-- C4: collection bootstrapping is idempotent: after one run that creates
the missing collections, a second run computes an empty missing-list and
creates nothing, leaving the store exactly as the first run left it. -/
theorem bootstrap_idempotent (s : Store) :
    (create_missing_collections (create_missing_collections s).2).1 = [] ∧
    (create_missing_collections (create_missing_collections s).2).2
      = (create_missing_collections s).2 := by
  have hall : ∀ c ∈ REQUIRED_COLLECTIONS,
      ((create_missing_collections s).2.names.contains c) = true := by
    intro c hc
    show ((verify_collections s).foldl get_or_create_collection s).names.contains c = true
    apply foldl_goc_contains
    by_cases hcs : s.names.contains c = true
    · exact Or.inr hcs
    · refine Or.inl ?_
      unfold verify_collections
      rw [List.mem_filter]
      have hcs' : s.names.contains c = false := by simpa using hcs
      exact ⟨hc, by simpa using hcs'⟩
  have hmiss : verify_collections (create_missing_collections s).2 = [] :=
    verify_collections_nil_of_all _ hall
  constructor
  · exact hmiss
  · show (verify_collections (create_missing_collections s).2).foldl get_or_create_collection
        (create_missing_collections s).2 = (create_missing_collections s).2
    rw [hmiss]
    rfl

/-- C5: a failing existence check is swallowed and treated as nonexistent:
for a classified readable file whose store lookup raises, the engine issues
the insert and returns added, whatever the store already holds under that
identifier; the lookup failure never escapes the existence-check step. -/
theorem lookup_failure_defaults_to_added (store : Store) (f : FileInput) (cname c : String)
    (hc : get_collection_for_file f.path = some cname)
    (hcol : store.names.contains cname = true)
    (hcont : f.content = some c)
    (hget : f.getRaises = true)
    (hadd : f.addRaises = false) :
    ∃ t, get_file_type f.path = some t ∧
      reindex_file store f = .ok (.added, store.upsert cname f.path c ⟨f.path, t, cname⟩) := by
  obtain ⟨mp, hmem, ht⟩ := classify_agree _ _ hc
  obtain ⟨es, hes⟩ := getCollection_of_contains store cname hcol
  refine ⟨mp.type, ht, ?_⟩
  unfold reindex_file
  simp only [hc, ht, hcont, hes]
  have hcond : (if f.getRaises then false else ((es.find? (fun e => e.1 == f.path)).isSome))
      = false := by
    rw [if_pos hget]
  rw [hcond, if_neg (by simp), if_neg (by simp [hadd])]

/-- Witness for C5: the store already holds a document under the feature
file's identifier, the lookup raises, and the outcome is still added. -/
theorem lookup_failure_defaults_to_added_witness :
    ∃ t, get_file_type fileGetRaises.path = some t ∧
      reindex_file storeWithDoc fileGetRaises
        = .ok (.added, storeWithDoc.upsert "features" fileGetRaises.path "Feature: login"
            ⟨fileGetRaises.path, t, "features"⟩) :=
  lookup_failure_defaults_to_added storeWithDoc fileGetRaises "features" "Feature: login"
    (by decide) (by decide) rfl rfl rfl

/-- C6: every successful selection returns a list that is strictly ascending
in the path order — lexicographic on the component sequence, which is how
Python orders the `Path` objects that `sorted` arranges — and therefore free
of duplicates; being a pure function of the filesystem, two runs over
identical inputs return the identical processing order. -/
theorem resolver_sorted_nodup (fs : FS) (fp t d : Option String) (l : List String)
    (h : get_files_to_reindex fs fp t d = .ok l) :
    l.Pairwise (fun a b => pathLt a b = true) ∧ l.Nodup := by
  have hsorted : ∃ l0, l = sortPaths l0 := by
    cases fp with
    | some fp' => exact select_single_ok_sorted fs fp' l h
    | none =>
      cases t with
      | some t' => exact select_by_type_ok_sorted fs t' l h
      | none =>
        cases d with
        | some d' => exact select_by_dir_ok_sorted fs d' l h
        | none => exact select_all_ok_sorted fs l h
  obtain ⟨l0, rfl⟩ := hsorted
  exact ⟨sortPaths_pairwise l0, sortPaths_nodup l0⟩

/-- Witness for C6: the all-mode selection over the demo filesystem is
strictly sorted and duplicate-free. -/
theorem resolver_sorted_nodup_witness :
    (["docs/adrs/0001-choice.md", "docs/business/plan.md",
      "docs/features/login.feature"].Pairwise (fun a b => pathLt a b = true)) ∧
    (["docs/adrs/0001-choice.md", "docs/business/plan.md",
      "docs/features/login.feature"] : List String).Nodup :=
  resolver_sorted_nodup fsDemo none none none
    ["docs/adrs/0001-choice.md", "docs/business/plan.md", "docs/features/login.feature"]
    (by rfl)

/-- C7: by-type selection with type "md" returns exactly the union of the
recursively enumerated markdown files under `docs/adrs` and `docs/business`,
with no duplicates; on a well-formed filesystem a directory that does not
exist contributes nothing, exactly as if it were empty. -/
theorem md_selection_union (fs : FS) (hwf : fs.wf = true) :
    ∃ l, get_files_to_reindex fs none (some "md") none = .ok l ∧ l.Nodup ∧
      ∀ p, p ∈ l ↔ p ∈ fs.files ∧
        (isUnderDir p "docs/adrs" = true ∨ isUnderDir p "docs/business" = true) ∧
        matchPattern "*.md" p = true := by
  refine ⟨sortPaths (collectDirs fs [("docs/adrs", "*.md"), ("docs/business", "*.md")] []),
    rfl, sortPaths_nodup _, ?_⟩
  intro p
  rw [mem_sortPaths, mem_collectDirs]
  constructor
  · rintro (hmem | ⟨w, hw, hc, hr⟩)
    · simp at hmem
    · rcases List.mem_cons.mp hw with rfl | hw2
      · rcases (mem_rglob fs p "docs/adrs" "*.md").mp hr with ⟨hf, hu, hpp⟩
        exact ⟨hf, Or.inl hu, hpp⟩
      · rcases List.mem_cons.mp hw2 with rfl | hw3
        · rcases (mem_rglob fs p "docs/business" "*.md").mp hr with ⟨hf, hu, hpp⟩
          exact ⟨hf, Or.inr hu, hpp⟩
        · simp at hw3
  · rintro ⟨hf, hu | hu, hpp⟩
    · have hdir : fs.dirs.contains "docs/adrs" = true := by
        unfold FS.wf at hwf
        have hd1 := (List.all_eq_true.mp hwf) "docs/adrs" (by decide)
        have hd2 := (List.all_eq_true.mp hd1) p hf
        simp [hu] at hd2
        simpa using hd2
      refine Or.inr ⟨("docs/adrs", "*.md"), by simp, hdir, ?_⟩
      exact (mem_rglob fs p "docs/adrs" "*.md").mpr ⟨hf, hu, hpp⟩
    · have hdir : fs.dirs.contains "docs/business" = true := by
        unfold FS.wf at hwf
        have hd1 := (List.all_eq_true.mp hwf) "docs/business" (by decide)
        have hd2 := (List.all_eq_true.mp hd1) p hf
        simp [hu] at hd2
        simpa using hd2
      refine Or.inr ⟨("docs/business", "*.md"), by simp, hdir, ?_⟩
      exact (mem_rglob fs p "docs/business" "*.md").mpr ⟨hf, hu, hpp⟩

/-- Witness for C7 on the demo filesystem, which holds one markdown file in
each of the two markdown directories. -/
theorem md_selection_union_witness :
    ∃ l, get_files_to_reindex fsDemo none (some "md") none = .ok l ∧ l.Nodup ∧
      ∀ p, p ∈ l ↔ p ∈ fsDemo.files ∧
        (isUnderDir p "docs/adrs" = true ∨ isUnderDir p "docs/business" = true) ∧
        matchPattern "*.md" p = true :=
  md_selection_union fsDemo (by decide)

/-- C8: the skipped outcome is unreachable in the default policy: a
successful reconciliation only ever returns added or updated, and every run
summary therefore reports a skipped count of exactly zero. -/
theorem skipped_unreachable :
    (∀ store f o s', reindex_file store f = .ok (o, s') →
      o = Outcome.added ∨ o = Outcome.updated) ∧
    (∀ store files, (runBatch store files).1.skipped = 0) := by
  constructor
  · intro store f o s' h
    exact (reindex_ok_outcome store f o s' h).1
  · intro store files
    unfold runBatch
    rw [foldl_stepFile_skipped]
    rfl

/-- Witness for C8: a concrete successful reconciliation lands in the
added-or-updated disjunction, and a concrete run skips nothing. -/
theorem skipped_unreachable_witness :
    (Outcome.added = Outcome.added ∨ Outcome.added = Outcome.updated) ∧
    (runBatch store4 [fileGoodMd, fileGoodFeature]).1.skipped = 0 :=
  ⟨skipped_unreachable.1 store4 fileGoodFeature Outcome.added
      (store4.upsert "features" "docs/features/login.feature" "Feature: login"
        ⟨"docs/features/login.feature", "feature", "features"⟩) (by rfl),
    skipped_unreachable.2 store4 [fileGoodMd, fileGoodFeature]⟩

/-- C9: the collection classifier and the file-type resolver agree on every
path — one succeeds exactly when the other does, and both read off the same
mapping entry — so the "cannot determine file type" branch of `reindex_file`
is unreachable: the engine never returns that error. -/
theorem classifier_and_type_agree :
    (∀ p, (get_collection_for_file p).isSome = (get_file_type p).isSome) ∧
    (∀ p c, get_collection_for_file p = some c →
      ∃ m, (c, m) ∈ COLLECTION_MAPPINGS ∧ get_file_type p = some m.type) ∧
    (∀ store f, reindex_file store f ≠ .error RErr.noFileType) := by
  refine ⟨classify_isSome_agree, fun p c h => classify_agree p c h, ?_⟩
  intro store f h
  unfold reindex_file at h
  cases hg : get_collection_for_file f.path with
  | none =>
    simp only [hg] at h
    exact RErr.noConfusion (Except.error.inj h)
  | some c =>
    simp only [hg] at h
    obtain ⟨mp, hmem, ht⟩ := classify_agree _ _ hg
    simp only [ht] at h
    cases hcn : f.content with
    | none =>
      simp only [hcn] at h
      exact RErr.noConfusion (Except.error.inj h)
    | some content =>
      simp only [hcn] at h
      cases hgc : store.getCollection c with
      | none =>
        simp only [hgc] at h
        exact RErr.noConfusion (Except.error.inj h)
      | some coll =>
        simp only [hgc] at h
        by_cases hex : (if f.getRaises then false
            else ((coll.find? (fun e => e.1 == f.path)).isSome)) = true
        · rw [if_pos hex] at h
          by_cases hu : f.updateRaises = true
          · rw [if_pos hu] at h
            exact RErr.noConfusion (Except.error.inj h)
          · rw [if_neg hu] at h
            exact Except.noConfusion h
        · rw [if_neg hex] at h
          by_cases ha : f.addRaises = true
          · rw [if_pos ha] at h
            exact RErr.noConfusion (Except.error.inj h)
          · rw [if_neg ha] at h
            exact Except.noConfusion h

/-- Witness for C9: the feature path classifies into `features`, and the
type resolver reads the same entry. -/
theorem classifier_and_type_agree_witness :
    ∃ m, ("features", m) ∈ COLLECTION_MAPPINGS ∧
      get_file_type "docs/features/login.feature" = some m.type :=
  classifier_and_type_agree.2.1 "docs/features/login.feature" "features" (by decide)

/-- C10: the dry-run report issues only read-only store calls — collection
handle fetches and id lookups, never an insert, update or collection
creation — so replaying its call trace against the store leaves every
document unchanged. -/
theorem dry_run_no_store_writes (store : Store) (files : List FileInput) :
    (∀ call ∈ (display_dry_run_report store files).2, call.mutates = false) ∧
    applyCalls store (display_dry_run_report store files).2 = store := by
  have hall := foldl_dryRunStep_no_mutate store files ([], []) (by simp)
  exact ⟨hall, applyCalls_id store _ hall⟩

/-- Witness for C10: a concrete dry run over two files against a populated
store, with its first call shown read-only and its trace replay a no-op. -/
theorem dry_run_no_store_writes_witness :
    StoreCall.mutates (StoreCall.getCollection "business-and-architecture") = false ∧
    applyCalls storeWithDoc
      (display_dry_run_report storeWithDoc [fileGoodMd, fileGoodFeature]).2 = storeWithDoc :=
  ⟨(dry_run_no_store_writes storeWithDoc [fileGoodMd, fileGoodFeature]).1
      (StoreCall.getCollection "business-and-architecture") (by decide),
    (dry_run_no_store_writes storeWithDoc [fileGoodMd, fileGoodFeature]).2⟩
